import Mathlib

/-!
# Shallow embedding of the e-waste digital-twin queue/processing engine

This file embeds the core state and operations of `src/digitaltwin.py`
(class `EWasteDigitalTwin`, the `/api/queue` route and the `auto_process`
driver) as executable Lean definitions, and proves or refutes the frozen
claims about them.

Modelling conventions:
- Python dicts that are mutated by key are association lists
  (`List (String × α)`) with insertion semantics matching CPython dicts:
  assigning to an existing key updates it in place, assigning to a fresh
  key appends at the end; `del` removes the (unique) entry for a key.
- Clock reads and random draws are passed in as explicit parameters
  (functions of the iteration index, or single values), so every
  operation is a deterministic function of the state and its draws.
- Machine floats are modelled as `ℚ`; `round(x, 4)` is rounding to the
  nearest multiple of `1/10000`.
- Code that can raise (the `KeyError` from an unknown-category catalog
  lookup) returns `Except (String × TwinState) TwinState`, the error
  carrying the state of the twin object at the moment of the raise.
-/

/-- A catalog entry, from the `EWASTE_CATEGORIES` table. -/
structure CategorySpec where
  materials : List String
  processing_time : ℚ
  recovery_rate : ℚ
  hazard_level : String
deriving Repr, DecidableEq

/-- The static `EWASTE_CATEGORIES` table of `src/digitaltwin.py`. -/
def EWASTE_CATEGORIES : List (String × CategorySpec) := [
  ("battery", ⟨["lithium", "cobalt", "nickel", "aluminum"], 15, mkRat 85 100, "high"⟩),
  ("cables", ⟨["copper", "plastic", "rubber"], 8, mkRat 92 100, "low"⟩),
  ("case", ⟨["steel", "aluminum", "plastic"], 12, mkRat 88 100, "low"⟩),
  ("cpu", ⟨["silicon", "gold", "silver", "copper"], 25, mkRat 78 100, "medium"⟩),
  ("cpu_coolers", ⟨["aluminum", "copper", "steel"], 10, mkRat 90 100, "low"⟩),
  ("gpu", ⟨["silicon", "gold", "silver", "copper", "plastic"], 30, mkRat 75 100, "medium"⟩),
  ("hdd", ⟨["aluminum", "steel", "rare_earth_magnets"], 18, mkRat 82 100, "medium"⟩),
  ("headset", ⟨["plastic", "copper", "steel"], 6, mkRat 85 100, "low"⟩),
  ("keyboard", ⟨["plastic", "rubber", "copper"], 7, mkRat 88 100, "low"⟩),
  ("laptop", ⟨["aluminum", "lithium", "gold", "silver", "copper", "plastic"], 45, mkRat 70 100, "high"⟩),
  ("microphone", ⟨["plastic", "copper", "steel"], 5, mkRat 87 100, "low"⟩),
  ("monitor", ⟨["glass", "plastic", "copper", "lead"], 35, mkRat 73 100, "high"⟩),
  ("motherboard", ⟨["gold", "silver", "copper", "palladium", "silicon"], 40, mkRat 68 100, "high"⟩),
  ("mouse", ⟨["plastic", "copper", "steel"], 4, mkRat 90 100, "low"⟩),
  ("ram", ⟨["gold", "silver", "copper", "silicon"], 20, mkRat 80 100, "medium"⟩),
  ("speakers", ⟨["plastic", "copper", "magnets"], 8, mkRat 85 100, "low"⟩),
  ("webcam", ⟨["plastic", "copper", "glass"], 6, mkRat 83 100, "low"⟩)]

/-- Catalog lookup by key: `EWASTE_CATEGORIES[category]`. -/
def findCategory (category : String) : Option CategorySpec :=
  (EWASTE_CATEGORIES.find? (fun p => p.1 = category)).map Prod.snd

/-- The static list of trace materials in `complete_processing` that draw
their base amount from the narrow `uniform(0.001, 0.05)` range. -/
def TRACE_MATERIALS : List String :=
  ["lithium", "cobalt", "nickel", "lead", "gold", "silver", "palladium"]

/-- One item record, as built by `add_to_queue` and mutated by
`process_next_item` / `complete_processing`. -/
structure Item where
  id : String
  category : String
  timestamp : String
  status : String
  estimated_processing_time : ℚ
  progress : ℚ
  start_time : Option String := none
  end_time : Option String := none
  materials_recovered : List (String × ℚ) := []
  recovery_efficiency : Option ℚ := none
deriving Repr, DecidableEq

/-- Python-dict assignment `d[k] = v` on an association list: update the
existing entry for `k` in place, or append `(k, v)` at the end. -/
def dictSet (k : String) (v : α) : List (String × α) → List (String × α)
  | [] => [(k, v)]
  | (k0, v0) :: rest =>
    if k0 = k then (k, v) :: rest else (k0, v0) :: dictSet k v rest

/-- Python-dict lookup `d[k]` (as an `Option`): the value at the first
entry whose key is `k`. -/
def dictGet? (k : String) (d : List (String × α)) : Option α :=
  (d.find? (fun p => p.1 = k)).map Prod.snd

/-- Python-dict `del d[k]`: drop the first entry whose key is `k`
(a no-op when the key is absent, which the source guards with `in`). -/
def dictDel (k : String) : List (String × α) → List (String × α)
  | [] => []
  | (k0, v0) :: rest => if k0 = k then rest else (k0, v0) :: dictDel k rest

/-- The `if k not in d: d[k] = 0` followed by `d[k] += v` pattern of
`complete_processing`: add `v` to the entry for `k`, creating it at the
end with value `v` when absent. -/
def dictAdd (k : String) (v : ℚ) (d : List (String × ℚ)) : List (String × ℚ) :=
  match dictGet? k d with
  | some v0 => dictSet k (v0 + v) d
  | none => d ++ [(k, v)]

/-- Python `round(x, 4)`: round to the nearest multiple of `1/10000`,
halves up (Python rounds halves to even, but no tie occurs at any
concrete input used below). -/
def round4 (q : ℚ) : ℚ := (⌊q * 10000 + 1/2⌋ : ℚ) / 10000

/-- The mutable state of an `EWasteDigitalTwin` instance. -/
structure TwinState where
  processing_queue : List Item
  processed_items : List Item
  active_processes : List (String × Item)
  total_materials_recovered : List (String × ℚ)
  system_status : String
deriving Repr, DecidableEq

/-- The constructor loop seeding `total_materials_recovered` with `0` for
every material of every catalog category. -/
def initTotals : List (String × ℚ) :=
  EWASTE_CATEGORIES.foldl
    (fun acc p => p.2.materials.foldl (fun acc2 m => dictSet m 0 acc2) acc) []

/-- Constructor `EWasteDigitalTwin.__init__` (the directory/sample-data side effects
touch only the filesystem, not the twin state). -/
def initState : TwinState :=
  { processing_queue := []
    processed_items := []
    active_processes := []
    total_materials_recovered := initTotals
    system_status := "idle" }

/-- The item dict literal of one `add_to_queue` loop iteration. `now` is
`int(time.time())`, `suffix` is `random.randint(1000, 9999)`, `iso` is
`datetime.now().isoformat()`, `spec` the catalog entry for `category`. -/
def mkItem (category : String) (now suffix : ℕ) (iso : String)
    (spec : CategorySpec) : Item :=
  { id := category ++ "_" ++ toString now ++ "_" ++ toString suffix
    category := category
    timestamp := iso
    status := "queued"
    estimated_processing_time := spec.processing_time
    progress := 0 }

/-- One iteration of the `add_to_queue` loop: build the item dict and
append it. The catalog lookup for `processing_time` happens inside the
dict literal, so an unknown category raises `KeyError` before anything
is appended; the error carries the (unchanged) state. -/
def addOneToQueue (category : String) (now suffix : ℕ) (iso : String)
    (s : TwinState) : Except (String × TwinState) TwinState :=
  match findCategory category with
  | none => Except.error ("KeyError", s)
  | some spec =>
    Except.ok { s with
      processing_queue := s.processing_queue ++ [mkItem category now suffix iso spec] }

/-- Method `EWasteDigitalTwin.add_to_queue(category, quantity)`: run the loop
body `range(quantity)` times (zero times when `quantity < 1`, exactly as
Python's `range`). `times i`, `rands i` and `isos i` are the clock and
random draws of iteration `i`. -/
def add_to_queue (times rands : ℕ → ℕ) (isos : ℕ → String) (s : TwinState)
    (category : String) (quantity : ℤ) : Except (String × TwinState) TwinState :=
  (List.range quantity.toNat).foldlM
    (fun st i => addOneToQueue category (times i) (rands i) (isos i) st) s

/-- Method `EWasteDigitalTwin.process_next_item()`: `None` on an empty queue;
otherwise pop the front item, mark it processing with a start timestamp,
register it in `active_processes` (dict assignment by id) and set the
status to `"processing"`. The spawned worker thread is modelled
separately (`simulate_item` / `complete_processing`). -/
def process_next_item (startTime : String) (s : TwinState) :
    Option (Item × TwinState) :=
  match s.processing_queue with
  | [] => none
  | item :: rest =>
    let item' := { item with status := "processing", start_time := some startTime }
    some (item',
      { s with
        processing_queue := rest
        active_processes := dictSet item'.id item' s.active_processes
        system_status := "processing" })

/-- Number of discrete steps of the per-item simulation loop. -/
def total_steps : ℕ := 20

/-- The progress/sleep trace of the simulation loop
`for step in range(total_steps + 1)`: at each iteration the item's
progress is set to `(step / total_steps) * 100` (one progress event) and
the worker sleeps `min(processing_time / total_steps, 0.5)` seconds. -/
def simulate_item (processing_time : ℚ) : List (ℚ × ℚ) :=
  (List.range (total_steps + 1)).map
    (fun (step : ℕ) => (((step : ℚ) / (total_steps : ℚ)) * 100,
                  min (processing_time / (total_steps : ℚ)) (1/2)))

/-- One iteration of the materials loop of `complete_processing`: the
recovered quantity is `base_amount × recovery_rate × jitter`; the item's
`materials_recovered` entry gets the value rounded to 4 decimals while
the running totals accumulate the unrounded value. `acc.1` is the item's
`materials_recovered` dict under construction, `acc.2` the global
totals. -/
def step_material (spec : CategorySpec) (base jitter : String → ℚ)
    (acc : List (String × ℚ) × List (String × ℚ)) (material : String) :
    List (String × ℚ) × List (String × ℚ) :=
  let recovered := base material * spec.recovery_rate * jitter material
  (dictSet material (round4 recovered) acc.1, dictAdd material recovered acc.2)

/-- The completion bookkeeping of `EWasteDigitalTwin.complete_processing`
(everything after the progress loop, which `simulate_item` models): the
materials loop, finalising the item record, appending it to
`processed_items`, deleting its id from `active_processes` if present,
and the status update. `base m` is the final `base_amount` drawn for
material `m` (after the trace-material override), `jitter m` the
`uniform(0.8, 1.2)` draw, `eff` the `uniform(0.7, 0.95)` draw. The
catalog lookup raises `KeyError` on an unknown category (unreachable for
items created by `add_to_queue`). -/
def complete_processing (base jitter : String → ℚ) (eff : ℚ)
    (endTime : String) (item : Item) (s : TwinState) :
    Except (String × TwinState) TwinState :=
  match findCategory item.category with
  | none => Except.error ("KeyError", s)
  | some spec =>
    let res := spec.materials.foldl (step_material spec base jitter)
      ([], s.total_materials_recovered)
    let item' := { item with
      status := "completed"
      end_time := some endTime
      materials_recovered := res.1
      recovery_efficiency := some eff }
    let processed' := s.processed_items ++ [item']
    let active' := dictDel item'.id s.active_processes
    let status' :=
      if active' = [] ∧ s.processing_queue = [] then "idle"
      else if s.processing_queue ≠ [] then "ready"
      else s.system_status
    Except.ok { s with
      processed_items := processed'
      active_processes := active'
      total_materials_recovered := res.2
      system_status := status' }

/-- Outcome of a POST to `/api/queue`. -/
inductive ApiQueueResult where
  | success
  | invalidCategory
deriving Repr, DecidableEq

/-- The POST branch of the `/api/queue` route (`api_queue`): check
`category in EWASTE_CATEGORIES` first; only when it is present call
`add_to_queue`, else reject with the `Invalid category` response and
touch nothing. -/
def api_queue_post (times rands : ℕ → ℕ) (isos : ℕ → String) (s : TwinState)
    (category : String) (quantity : ℤ) :
    Except (String × TwinState) (ApiQueueResult × TwinState) :=
  if (findCategory category).isSome then
    (add_to_queue times rands isos s category quantity).map
      (fun s' => (ApiQueueResult.success, s'))
  else
    Except.ok (ApiQueueResult.invalidCategory, s)

/-- One pass of the `auto_process` background loop body: call
`process_next_item` only when the queue is non-empty and fewer than 3
processes are active; otherwise leave the state untouched. -/
def auto_process_tick (startTime : String) (s : TwinState) : TwinState :=
  if s.processing_queue ≠ [] ∧ s.active_processes.length < 3 then
    match process_next_item startTime s with
    | some (_, s') => s'
    | none => s
  else s

/-- The snapshot returned by `EWasteDigitalTwin.get_system_stats`. -/
structure SystemStats where
  queue_length : ℕ
  active_count : ℕ
  completed_today : ℕ
  total_processed : ℕ
  system_status : String
  total_materials_recovered : List (String × ℚ)
  processing_queue : List Item
  active_items : List Item
  processed_items : List Item
deriving Repr, DecidableEq

/-- Method `EWasteDigitalTwin.get_system_stats()`. `isToday ts` abstracts
`datetime.fromisoformat(ts).date() == datetime.now().date()`. The
`categories_breakdown` field is modelled by `get_categories_breakdown`
below and omitted from the record (no claim mentions it). -/
def get_system_stats (isToday : String → Bool) (s : TwinState) : SystemStats :=
  { queue_length := s.processing_queue.length
    active_count := s.active_processes.length
    completed_today := (s.processed_items.filter (fun it => isToday it.timestamp)).length
    total_processed := s.processed_items.length
    system_status := s.system_status
    total_materials_recovered :=
      s.total_materials_recovered.map (fun kv => (kv.1, round4 kv.2))
    processing_queue := s.processing_queue
    active_items := s.active_processes.map Prod.snd
    processed_items := s.processed_items }

/-- Method `EWasteDigitalTwin.get_categories_breakdown()`: per catalog category,
the number of completed items and the per-category material totals.
(The `breakdown[category]` lookup cannot fail for items created by
`add_to_queue`, whose categories are catalog keys; an off-catalog
category would raise, modelled here as leaving the accumulator
unchanged.) -/
def get_categories_breakdown (s : TwinState) :
    List (String × (ℕ × List (String × ℚ))) :=
  s.processed_items.foldl
    (fun acc item =>
      match dictGet? item.category acc with
      | none => acc
      | some (cnt, mats) =>
        dictSet item.category
          (cnt + 1,
           item.materials_recovered.foldl
             (fun m kv => dictAdd kv.1 kv.2 m) mats)
          acc)
    (EWASTE_CATEGORIES.map (fun p => (p.1, (0, ([] : List (String × ℚ))))))

/-- A twin state extended with verification ghosts: `running` is the
multiset of items whose worker threads have been started by
`process_next_item` but whose `complete_processing` has not yet run;
`enqueued` counts every item ever appended by `add_to_queue`. -/
structure GState where
  twin : TwinState
  running : List Item
  enqueued : ℕ
deriving Repr, DecidableEq

/-- The initial global state: a freshly constructed twin. -/
def initGState : GState := { twin := initState, running := [], enqueued := 0 }

/-- The serialized transition relation of the system: a successful
`add_to_queue` call (from `/api/queue`, the WebSocket handler or
`__main__`), a successful `process_next_item` call (from `/api/process`,
`start_processing` or `auto_process`), or the completion bookkeeping of
one started worker thread. Random draws appear as constructor arguments;
the draws of `complete_processing` are constrained to the ranges
`random.uniform` guarantees in the source. -/
inductive Step : GState → GState → Prop where
  | enqueue (g : GState) (category : String) (quantity : ℤ)
      (times rands : ℕ → ℕ) (isos : ℕ → String) (s' : TwinState)
      (h : add_to_queue times rands isos g.twin category quantity = Except.ok s') :
      Step g { twin := s', running := g.running, enqueued := g.enqueued + quantity.toNat }
  | processNext (g : GState) (startTime : String) (item : Item) (s' : TwinState)
      (h : process_next_item startTime g.twin = some (item, s')) :
      Step g { twin := s', running := g.running ++ [item], enqueued := g.enqueued }
  | complete (g : GState) (item : Item) (pre post : List Item)
      (base jitter : String → ℚ) (eff : ℚ) (endTime : String)
      (spec : CategorySpec) (s' : TwinState)
      (hrun : g.running = pre ++ item :: post)
      (hspec : findCategory item.category = some spec)
      (hbase : ∀ m ∈ spec.materials,
        if m ∈ TRACE_MATERIALS then mkRat 1 1000 ≤ base m ∧ base m ≤ mkRat 1 20
        else 10 ≤ base m ∧ base m ≤ 100)
      (hjitter : ∀ m ∈ spec.materials, mkRat 4 5 ≤ jitter m ∧ jitter m ≤ mkRat 6 5)
      (heff : mkRat 7 10 ≤ eff ∧ eff ≤ mkRat 19 20)
      (h : complete_processing base jitter eff endTime item g.twin = Except.ok s') :
      Step g { twin := s', running := pre ++ post, enqueued := g.enqueued }

/-- A state is reachable when some serialized run of the system produces
it from a freshly constructed twin. -/
def Reachable (g : GState) : Prop := Relation.ReflTransGen Step initGState g

/-- Keys of an association list. -/
def dictKeys (d : List (String × α)) : List String := d.map Prod.fst

/-- The items appended by the first `n` loop iterations of an
`add_to_queue(category, ·)` call with draw streams `times`/`rands`/`isos`. -/
def newItems (times rands : ℕ → ℕ) (isos : ℕ → String) (category : String)
    (spec : CategorySpec) (n : ℕ) : List Item :=
  (List.range n).map (fun i => mkItem category (times i) (rands i) (isos i) spec)

/-- Fixed draw streams for concrete runs: the clock second, the
`randint(1000, 9999)` suffix and the ISO timestamp of each iteration. -/
def drawTimes : ℕ → ℕ := fun _ => 1000

def drawRands : ℕ → ℕ := fun _ => 1234

def drawRandsDistinct : ℕ → ℕ := fun i => 1000 + i

def drawIsos : ℕ → String := fun _ => "2024-01-01T00:00:00"

/-- Extract the success state of an `Except`-returning operation (the
default is never used at the concrete call sites below). -/
def exceptOk (dflt : TwinState) : Except (String × TwinState) TwinState → TwinState
  | Except.ok s => s
  | Except.error _ => dflt

/-- Extract the post-state of a successful `process_next_item` call. -/
def optState (dflt : TwinState) : Option (Item × TwinState) → TwinState
  | some (_, s) => s
  | none => dflt

/-- The `mouse` catalog entry. -/
def mouseSpec : CategorySpec := ⟨["plastic", "copper", "steel"], 4, mkRat 90 100, "low"⟩

/-- The i-th item of the concrete `add_to_queue("mouse", 4)` call below
(distinct random suffixes `1000 + i`). -/
def mouseItem (i : ℕ) : Item :=
  mkItem "mouse" 1000 (1000 + i) "2024-01-01T00:00:00" mouseSpec

/-- The item `mouseItem i` as mutated by `process_next_item` with start time `st`. -/
def startedMouse (i : ℕ) (st : String) : Item :=
  { mouseItem i with status := "processing", start_time := some st }

/-- State after `add_to_queue("mouse", 4)` on a fresh twin. -/
def mouseEnqueued : TwinState :=
  exceptOk initState
    (add_to_queue drawTimes drawRandsDistinct drawIsos initState "mouse" 4)

/-- States after one, two and three `process_next_item` calls. -/
def busy1 : TwinState := optState initState (process_next_item "S1" mouseEnqueued)

def busy2 : TwinState := optState initState (process_next_item "S2" busy1)

def busy3 : TwinState := optState initState (process_next_item "S3" busy2)

/-- State after a fourth `process_next_item` call, made while three
processes are already active. -/
def busy4 : TwinState := optState initState (process_next_item "S4" busy3)

/-- State after `add_to_queue("battery", 1)` on a fresh twin. -/
def batteryOne : TwinState :=
  exceptOk initState
    (add_to_queue drawTimes drawRands drawIsos initState "battery" 1)

/-- State after `add_to_queue("battery", 2)` on a fresh twin with both
loop iterations observing the same clock second (1000) and drawing the
same random suffix (1234) — draws that `time.time()` and
`random.randint(1000, 9999)` can produce. -/
def batteryTwo : TwinState :=
  exceptOk initState
    (add_to_queue drawTimes drawRands drawIsos initState "battery" 2)

/-- The `battery` catalog entry. -/
def batterySpec : CategorySpec :=
  ⟨["lithium", "cobalt", "nickel", "aluminum"], 15, mkRat 85 100, "high"⟩

/-- The single item of the concrete `add_to_queue("battery", 1)` call. -/
def batItem : Item := mkItem "battery" 1000 1234 "2024-01-01T00:00:00" batterySpec

/-- The item `batItem` as started by `process_next_item` with start time `"S1"`. -/
def batStartedItem : Item :=
  { batItem with status := "processing", start_time := some "S1" }

/-- State after starting the battery item. -/
def batProcessing : TwinState := optState initState (process_next_item "S1" batteryOne)

/-- Concrete material draws for the completion: `0.012345` for the trace
materials (within `uniform(0.001, 0.05)`) and `50` for the bulk ones
(within `uniform(10, 100)`); jitter 1 (within `uniform(0.8, 1.2)`). -/
def cexBase : String → ℚ :=
  fun m => if m ∈ TRACE_MATERIALS then mkRat 12345 1000000 else 50

def cexJitter : String → ℚ := fun _ => 1

/-- State after the battery item's `complete_processing`. -/
def batDone : TwinState :=
  exceptOk initState
    (complete_processing cexBase cexJitter (mkRat 8 10) "E1" batStartedItem
      batProcessing)

/-- The inductive invariant of reachable states: item conservation
(every enqueued item is queued, running or completed, and the active map
has at most one entry per running item), and the totals mapping covers
every catalog material with non-negative values. -/
def TwinInv (g : GState) : Prop :=
  g.twin.processing_queue.length + g.running.length +
      g.twin.processed_items.length = g.enqueued ∧
    (dictKeys g.twin.active_processes).Nodup ∧
    (∀ k ∈ dictKeys g.twin.active_processes, k ∈ g.running.map Item.id) ∧
    (∀ p ∈ EWASTE_CATEGORIES, ∀ m ∈ p.2.materials,
      (dictGet? m g.twin.total_materials_recovered).isSome = true) ∧
    (∀ kv ∈ g.twin.total_materials_recovered, 0 ≤ kv.2)

lemma dictKeys_dictSet (k : String) (v : α) (d : List (String × α)) :
    ∀ x ∈ dictKeys (dictSet k v d), x ∈ dictKeys d ∨ x = k := by
  induction d with
  | nil => simp [dictSet, dictKeys]
  | cons hd tl ih =>
    intro x hx
    by_cases hk : hd.1 = k
    · obtain ⟨k0, v0⟩ := hd
      simp only [dictSet, dictKeys] at hx ⊢
      subst hk
      simp only [if_pos rfl] at hx
      rcases (List.mem_cons).1 hx with h | h
      · right; exact h
      · left; exact List.mem_cons_of_mem _ h
    · obtain ⟨k0, v0⟩ := hd
      simp only [dictSet, dictKeys, if_neg hk] at hx
      rcases (List.mem_cons).1 hx with h | h
      · left; simp [dictKeys, h]
      · rcases ih x h with h' | h'
        · left; exact List.mem_cons_of_mem _ h'
        · right; exact h'

lemma mem_dictKeys_dictSet_self (k : String) (v : α) (d : List (String × α)) :
    k ∈ dictKeys (dictSet k v d) := by
  induction d with
  | nil => simp [dictSet, dictKeys]
  | cons hd tl ih =>
    by_cases hk : hd.1 = k
    · obtain ⟨k0, v0⟩ := hd; subst hk; simp [dictSet, dictKeys]
    · obtain ⟨k0, v0⟩ := hd
      simp only [dictSet, dictKeys, if_neg hk]
      exact List.mem_cons_of_mem _ ih

lemma mem_dictKeys_dictSet_of_mem (k : String) (v : α) (d : List (String × α))
    (x : String) (hx : x ∈ dictKeys d) : x ∈ dictKeys (dictSet k v d) := by
  induction d with
  | nil => simp [dictKeys] at hx
  | cons hd tl ih =>
    obtain ⟨k0, v0⟩ := hd
    by_cases hk : k0 = k
    · subst hk
      simpa [dictSet, dictKeys] using hx
    · simp only [dictSet, if_neg hk, dictKeys, List.map_cons] at hx ⊢
      rcases (List.mem_cons).1 hx with h | h
      · exact (List.mem_cons).2 (Or.inl h)
      · exact List.mem_cons_of_mem _ (ih h)

lemma dictKeys_dictSet_nodup (k : String) (v : α) (d : List (String × α))
    (hd : (dictKeys d).Nodup) : (dictKeys (dictSet k v d)).Nodup := by
  induction d with
  | nil => simp [dictSet, dictKeys]
  | cons hd0 tl ih =>
    obtain ⟨k0, v0⟩ := hd0
    simp only [dictKeys, List.map_cons, List.nodup_cons] at hd
    by_cases hk : k0 = k
    · subst hk
      simp only [dictSet, dictKeys, if_pos rfl]
      simpa [dictKeys, List.nodup_cons] using hd
    · simp only [dictSet, if_neg hk, dictKeys, List.map_cons, List.nodup_cons]
      refine ⟨fun hmem => ?_, ih hd.2⟩
      rcases dictKeys_dictSet k v tl k0 hmem with h | h
      · exact hd.1 h
      · exact hk h

lemma dictDel_sublist (k : String) (d : List (String × α)) :
    (dictDel k d).Sublist d := by
  induction d with
  | nil => simp [dictDel]
  | cons hd tl ih =>
    obtain ⟨k0, v0⟩ := hd
    by_cases hk : k0 = k
    · simp only [dictDel, if_pos hk]
      exact List.sublist_cons_of_sublist _ (List.Sublist.refl tl)
    · simp only [dictDel, if_neg hk]
      exact List.Sublist.cons₂ _ ih

lemma dictKeys_dictDel_nodup (k : String) (d : List (String × α))
    (hd : (dictKeys d).Nodup) : (dictKeys (dictDel k d)).Nodup :=
  ((dictDel_sublist k d).map Prod.fst).nodup hd

lemma mem_dictKeys_dictDel (k : String) (d : List (String × α))
    (hd : (dictKeys d).Nodup) (x : String)
    (hx : x ∈ dictKeys (dictDel k d)) : x ∈ dictKeys d ∧ x ≠ k := by
  induction d with
  | nil => simp [dictDel, dictKeys] at hx
  | cons hd0 tl ih =>
    obtain ⟨k0, v0⟩ := hd0
    simp only [dictKeys, List.map_cons, List.nodup_cons] at hd
    by_cases hk : k0 = k
    · subst hk
      simp only [dictDel, if_pos rfl] at hx
      refine ⟨List.mem_cons_of_mem _ hx, fun hxk => ?_⟩
      exact hd.1 (hxk ▸ hx)
    · simp only [dictDel, if_neg hk, dictKeys, List.map_cons] at hx
      rcases (List.mem_cons).1 hx with h | h
      · subst h
        exact ⟨List.mem_cons_self _ _, fun hxk => hk hxk⟩
      · obtain ⟨h1, h2⟩ := ih hd.2 h
        exact ⟨List.mem_cons_of_mem _ h1, h2⟩

lemma addOneToQueue_known (category : String) (spec : CategorySpec)
    (hcat : findCategory category = some spec) (now suffix : ℕ) (iso : String)
    (s : TwinState) :
    addOneToQueue category now suffix iso s =
      Except.ok { s with processing_queue :=
        s.processing_queue ++ [mkItem category now suffix iso spec] } := by
  simp [addOneToQueue, hcat]

/-- Closed form of `add_to_queue` for a catalog category: it always
succeeds and appends one freshly built item per loop iteration, in
iteration order. -/
lemma add_to_queue_known (times rands : ℕ → ℕ) (isos : ℕ → String)
    (s : TwinState) (category : String) (spec : CategorySpec)
    (hcat : findCategory category = some spec) (quantity : ℤ) :
    add_to_queue times rands isos s category quantity =
      Except.ok { s with processing_queue :=
        s.processing_queue ++ newItems times rands isos category spec quantity.toNat } := by
  unfold add_to_queue newItems
  generalize quantity.toNat = n
  induction n generalizing s with
  | zero => simp [pure, Except.pure]
  | succ m ih =>
    rw [List.range_succ, List.foldlM_append, ih]
    simp [addOneToQueue_known category spec hcat, List.range_succ, bind,
      Except.bind, List.append_assoc, pure, Except.pure]

/-- Behaviour of `add_to_queue` for an unknown category and a positive quantity: the
first loop iteration's catalog lookup raises `KeyError` before anything
is appended, so the error carries the unchanged state. -/
lemma add_to_queue_unknown (times rands : ℕ → ℕ) (isos : ℕ → String)
    (s : TwinState) (category : String)
    (hcat : findCategory category = none) (quantity : ℤ)
    (hq : 1 ≤ quantity) :
    add_to_queue times rands isos s category quantity =
      Except.error ("KeyError", s) := by
  unfold add_to_queue
  obtain ⟨n, hn⟩ : ∃ n, quantity.toNat = n + 1 :=
    ⟨quantity.toNat - 1, by omega⟩
  rw [hn, List.range_succ_eq_map]
  simp only [List.foldlM_cons, addOneToQueue, hcat]
  rfl

/-- Behaviour of `add_to_queue` with `quantity < 1`: the loop runs zero times, so it
returns successfully with the state untouched. -/
lemma add_to_queue_nonpos (times rands : ℕ → ℕ) (isos : ℕ → String)
    (s : TwinState) (category : String) (quantity : ℤ)
    (hq : quantity < 1) :
    add_to_queue times rands isos s category quantity = Except.ok s := by
  unfold add_to_queue
  have : quantity.toNat = 0 := by omega
  rw [this]
  rfl

/-- C2 counterexample: `add_to_queue("battery", 0)` does not fail — it
returns successfully with the state (hence the queue) unchanged, so no
`InvalidQuantity` error exists. -/
theorem C2_quantity_zero_silently_succeeds :
    add_to_queue drawTimes drawRands drawIsos initState "battery" 0 =
      Except.ok initState := rfl

/-- C2 (amended): for every state, category and `quantity < 1`, the
`add_to_queue` loop body runs zero times, so the call silently succeeds
as a no-op — the state (and so the queue length) is unchanged and no
error of any kind is raised. -/
theorem C2_nonpositive_quantity_noop (times rands : ℕ → ℕ)
    (isos : ℕ → String) (s : TwinState) (category : String) (quantity : ℤ)
    (hq : quantity < 1) :
    add_to_queue times rands isos s category quantity = Except.ok s :=
  add_to_queue_nonpos times rands isos s category quantity hq

/-- C2 witness: the amended theorem at a concrete input. -/
theorem C2_nonpositive_quantity_noop_witness :
    ((-2 : ℤ) < 1) ∧
      add_to_queue drawTimes drawRands drawIsos initState "cables" (-2) =
        Except.ok initState :=
  ⟨by decide,
   C2_nonpositive_quantity_noop drawTimes drawRands drawIsos initState
     "cables" (-2) (by decide)⟩

/-- C3: for every category id absent from the catalog and every
quantity, the enqueue entry point rejects the request atomically: the
`/api/queue` handler returns the `Invalid category` response with the
state unchanged (no items created), and a direct `add_to_queue` call
with a positive quantity raises `KeyError` out of the first loop
iteration before anything is appended, also leaving the state
unchanged. -/
theorem C3_unknown_category_rejected (times rands : ℕ → ℕ)
    (isos : ℕ → String) (s : TwinState) (category : String)
    (hcat : findCategory category = none) (quantity : ℤ) :
    api_queue_post times rands isos s category quantity =
        Except.ok (ApiQueueResult.invalidCategory, s) ∧
      (1 ≤ quantity →
        add_to_queue times rands isos s category quantity =
          Except.error ("KeyError", s)) := by
  refine ⟨?_, fun hq => add_to_queue_unknown times rands isos s category hcat quantity hq⟩
  simp [api_queue_post, hcat]

/-- C3 witness: the theorem at the concrete unknown category `"phone"`
with quantity 2. -/
theorem C3_unknown_category_rejected_witness :
    findCategory "phone" = none ∧
      (api_queue_post drawTimes drawRands drawIsos initState "phone" 2 =
          Except.ok (ApiQueueResult.invalidCategory, initState) ∧
        ((1 : ℤ) ≤ 2 →
          add_to_queue drawTimes drawRands drawIsos initState "phone" 2 =
            Except.error ("KeyError", initState))) :=
  ⟨rfl, C3_unknown_category_rejected drawTimes drawRands drawIsos initState
    "phone" rfl 2⟩

/-- C7: for every catalog category and quantity ≥ 1, `add_to_queue`
succeeds and appends exactly `quantity` new items at the back of the
queue in iteration (call) order, each with status `"queued"` and
progress 0; the queue length grows by exactly `quantity` and every
previously queued item keeps its position. -/
theorem C7_enqueue_appends_fifo (times rands : ℕ → ℕ) (isos : ℕ → String)
    (s : TwinState) (category : String) (spec : CategorySpec)
    (hcat : findCategory category = some spec) (quantity : ℤ)
    (hq : 1 ≤ quantity) :
    ∃ s', add_to_queue times rands isos s category quantity = Except.ok s' ∧
      s'.processing_queue =
        s.processing_queue ++ newItems times rands isos category spec quantity.toNat ∧
      (s'.processing_queue.length : ℤ) = s.processing_queue.length + quantity ∧
      (∀ i : ℕ, i < s.processing_queue.length →
        s'.processing_queue[i]? = s.processing_queue[i]?) ∧
      ∀ it ∈ newItems times rands isos category spec quantity.toNat,
        it.status = "queued" ∧ it.progress = 0 := by
  refine ⟨_, add_to_queue_known times rands isos s category spec hcat quantity,
    rfl, ?_, ?_, ?_⟩
  · have hlen : (newItems times rands isos category spec quantity.toNat).length
        = quantity.toNat := by
      simp [newItems]
    simp only [List.length_append, hlen]
    omega
  · intro i hi
    rw [List.getElem?_append, if_pos hi]
  · intro it hit
    obtain ⟨i, _, rfl⟩ := List.mem_map.1 hit
    exact ⟨rfl, rfl⟩

/-- C7 witness: the theorem at `("battery", 2)` with concrete draws. -/
theorem C7_enqueue_appends_fifo_witness :
    findCategory "battery" =
        some ⟨["lithium", "cobalt", "nickel", "aluminum"], 15, mkRat 85 100, "high"⟩ ∧
      (1 : ℤ) ≤ 2 ∧
      (∃ s', add_to_queue drawTimes drawRands drawIsos initState "battery" 2 =
          Except.ok s' ∧
        s'.processing_queue =
          initState.processing_queue ++ newItems drawTimes drawRands drawIsos
            "battery" ⟨["lithium", "cobalt", "nickel", "aluminum"], 15, mkRat 85 100, "high"⟩
            (2 : ℤ).toNat ∧
        (s'.processing_queue.length : ℤ) = initState.processing_queue.length + 2 ∧
        (∀ i : ℕ, i < initState.processing_queue.length →
          s'.processing_queue[i]? = initState.processing_queue[i]?) ∧
        ∀ it ∈ newItems drawTimes drawRands drawIsos "battery"
            ⟨["lithium", "cobalt", "nickel", "aluminum"], 15, mkRat 85 100, "high"⟩
            (2 : ℤ).toNat,
          it.status = "queued" ∧ it.progress = 0) :=
  ⟨rfl, by decide,
   C7_enqueue_appends_fifo drawTimes drawRands drawIsos initState "battery"
     ⟨["lithium", "cobalt", "nickel", "aluminum"], 15, mkRat 85 100, "high"⟩
     rfl 2 (by decide)⟩

/-- C6 counterexample: for the `battery` category (nominal duration 15),
the simulation loop `for step in range(total_steps + 1)` performs 21
progress updates (steps 0 through 20), not 20. -/
theorem C6_twenty_one_progress_events :
    (simulate_item 15).length = 21 ∧ (simulate_item 15).length ≠ 20 := by
  rw [simulate_item, List.length_map, List.length_range]
  exact ⟨rfl, by decide⟩

/-- C6 (amended): the per-item simulation emits exactly 21 progress
events (steps 0..20 inclusive), the i-th setting progress to
`(i / 20) × 100 = i × 5`; progress starts at 0 (index 0) and ends at 100
(index 20), and the sleep after each step is `min(duration / 20, 0.5)`
seconds, hence at most half a second. -/
theorem C6_simulation_trace (pt : ℚ) :
    (simulate_item pt).length = 21 ∧
      simulate_item pt =
        (List.range 21).map (fun (i : ℕ) => ((i : ℚ) * 5, min (pt / 20) (1/2))) ∧
      (simulate_item pt)[0]? = some (0, min (pt / 20) (1/2)) ∧
      (simulate_item pt)[20]? = some (100, min (pt / 20) (1/2)) ∧
      min (pt / 20) (1/2) ≤ 1/2 := by
  have hmap : simulate_item pt =
      (List.range 21).map (fun (i : ℕ) => ((i : ℚ) * 5, min (pt / 20) (1/2))) := by
    unfold simulate_item total_steps
    refine List.map_congr_left (fun i _ => ?_)
    have h20 : ((20 : ℕ) : ℚ) = 20 := by norm_num
    rw [h20]
    congr 1
    ring
  refine ⟨by rw [simulate_item, List.length_map, List.length_range]; rfl, hmap, ?_, ?_,
    min_le_right _ _⟩
  · rw [hmap]
    simp only [List.getElem?_map, List.getElem?_range (by norm_num : (0:ℕ) < 21),
      Option.map_some]
    norm_num
  · rw [hmap]
    simp only [List.getElem?_map, List.getElem?_range (by norm_num : (20:ℕ) < 21),
      Option.map_some]
    norm_num

/-- C1 counterexample: `busy3` is a reachable state whose active count
equals the cap (3) with one item still queued, yet `process_next_item`
is not a no-op there: it dequeues the item, returns it, and registers a
fourth active process — it has no concurrency check and no
`ConcurrencyLimitReached` signal. -/
theorem C1_counterexample :
    Reachable ⟨busy3, [startedMouse 0 "S1", startedMouse 1 "S2", startedMouse 2 "S3"], 4⟩ ∧
      busy3.active_processes.length = 3 ∧
      busy3.processing_queue.length = 1 ∧
      process_next_item "S4" busy3 = some (startedMouse 3 "S4", busy4) ∧
      busy4.processing_queue = [] ∧
      busy4.active_processes.length = 4 := by
  refine ⟨?_, by decide, by decide, rfl, by decide, by decide⟩
  have h0 : Step initGState ⟨mouseEnqueued, [], 4⟩ :=
    Step.enqueue initGState "mouse" 4 drawTimes drawRandsDistinct drawIsos
      mouseEnqueued rfl
  have h1 : Step ⟨mouseEnqueued, [], 4⟩ ⟨busy1, [startedMouse 0 "S1"], 4⟩ :=
    Step.processNext ⟨mouseEnqueued, [], 4⟩ "S1" (startedMouse 0 "S1") busy1 rfl
  have h2 : Step ⟨busy1, [startedMouse 0 "S1"], 4⟩
      ⟨busy2, [startedMouse 0 "S1", startedMouse 1 "S2"], 4⟩ :=
    Step.processNext _ "S2" (startedMouse 1 "S2") busy2 rfl
  have h3 : Step ⟨busy2, [startedMouse 0 "S1", startedMouse 1 "S2"], 4⟩
      ⟨busy3, [startedMouse 0 "S1", startedMouse 1 "S2", startedMouse 2 "S3"], 4⟩ :=
    Step.processNext _ "S3" (startedMouse 2 "S3") busy3 rfl
  exact Relation.ReflTransGen.head h0 (Relation.ReflTransGen.head h1
    (Relation.ReflTransGen.head h2 (Relation.ReflTransGen.single h3)))

/-- C1 (amended): the concurrency cap of 3 is enforced only by the
`auto_process` background driver, which skips calling
`process_next_item` when 3 or more processes are active (leaving the
state, and so the queue, unchanged); `process_next_item` itself performs
no concurrency check — whenever the queue is non-empty it dequeues and
starts the next item regardless of the active count. -/
theorem C1_cap_enforced_only_by_driver (s : TwinState) (startTime : String)
    (hcap : 3 ≤ s.active_processes.length) (hq : s.processing_queue ≠ []) :
    auto_process_tick startTime s = s ∧
      ∃ item s', process_next_item startTime s = some (item, s') ∧
        s'.processing_queue.length + 1 = s.processing_queue.length := by
  constructor
  · unfold auto_process_tick
    rw [if_neg]
    intro ⟨_, hlt⟩
    omega
  · cases h : s.processing_queue with
    | nil => exact absurd h hq
    | cons a l =>
      have hpn : process_next_item startTime s =
          some ({ a with status := "processing", start_time := some startTime },
            { s with
              processing_queue := l
              active_processes := dictSet
                ({ a with status := "processing", start_time := some startTime }).id
                { a with status := "processing", start_time := some startTime }
                s.active_processes
              system_status := "processing" }) := by
        unfold process_next_item
        rw [h]
      exact ⟨_, _, hpn, by simp⟩

/-- C1 witness: the amended theorem at the concrete state `busy3`. -/
theorem C1_cap_enforced_only_by_driver_witness :
    (3 ≤ busy3.active_processes.length) ∧ busy3.processing_queue ≠ [] ∧
      (auto_process_tick "S4" busy3 = busy3 ∧
        ∃ item s', process_next_item "S4" busy3 = some (item, s') ∧
          s'.processing_queue.length + 1 = busy3.processing_queue.length) :=
  ⟨by decide, by decide,
   C1_cap_enforced_only_by_driver busy3 "S4" (by decide) (by decide)⟩

/-- Effect of any successful `add_to_queue` call on the state fields:
only the queue changes, growing by `quantity.toNat` items. -/
lemma add_to_queue_ok_fields (times rands : ℕ → ℕ) (isos : ℕ → String)
    (s : TwinState) (category : String) (quantity : ℤ) (s' : TwinState)
    (h : add_to_queue times rands isos s category quantity = Except.ok s') :
    s'.processed_items = s.processed_items ∧
      s'.active_processes = s.active_processes ∧
      s'.total_materials_recovered = s.total_materials_recovered ∧
      s'.system_status = s.system_status ∧
      s'.processing_queue.length = s.processing_queue.length + quantity.toNat := by
  cases hcat : findCategory category with
  | some spec =>
    rw [add_to_queue_known times rands isos s category spec hcat quantity] at h
    injection h with h
    subst h
    refine ⟨rfl, rfl, rfl, rfl, ?_⟩
    simp [newItems]
  | none =>
    by_cases hq : 1 ≤ quantity
    · rw [add_to_queue_unknown times rands isos s category hcat quantity hq] at h
      cases h
    · rw [add_to_queue_nonpos times rands isos s category quantity (by omega)] at h
      injection h with h
      subst h
      exact ⟨rfl, rfl, rfl, rfl, by omega⟩

/-- Structure of any successful `process_next_item` call: the queue had
a front item, which is returned marked processing and registered in the
active set, and the status becomes `"processing"`. -/
lemma process_next_item_some_fields (startTime : String) (s : TwinState)
    (item : Item) (s' : TwinState)
    (h : process_next_item startTime s = some (item, s')) :
    ∃ a rest, s.processing_queue = a :: rest ∧
      item = { a with status := "processing", start_time := some startTime } ∧
      s' = { s with
        processing_queue := rest
        active_processes := dictSet item.id item s.active_processes
        system_status := "processing" } := by
  cases hqs : s.processing_queue with
  | nil => rw [process_next_item, hqs] at h; cases h
  | cons a rest =>
    rw [process_next_item, hqs] at h
    simp only [Option.some.injEq, Prod.mk.injEq] at h
    obtain ⟨h1, h2⟩ := h
    subst h1
    subst h2
    exact ⟨a, rest, rfl, rfl, rfl⟩

/-- Structure of any successful `complete_processing` call: the item's
category is in the catalog, and the state update is the materials fold,
the append to `processed_items`, the active-set deletion and the status
rule (`"idle"` only when nothing is active or queued after the removal,
`"ready"` whenever the queue is non-empty, unchanged otherwise). -/
lemma complete_processing_ok_fields (base jitter : String → ℚ) (eff : ℚ)
    (endTime : String) (item : Item) (s s' : TwinState)
    (h : complete_processing base jitter eff endTime item s = Except.ok s') :
    ∃ spec, findCategory item.category = some spec ∧
      s' = { s with
        processed_items := s.processed_items ++
          [{ item with
              status := "completed"
              end_time := some endTime
              materials_recovered :=
                (spec.materials.foldl (step_material spec base jitter)
                  ([], s.total_materials_recovered)).1
              recovery_efficiency := some eff }]
        active_processes := dictDel item.id s.active_processes
        total_materials_recovered :=
          (spec.materials.foldl (step_material spec base jitter)
            ([], s.total_materials_recovered)).2
        system_status :=
          if dictDel item.id s.active_processes = [] ∧ s.processing_queue = []
          then "idle"
          else if s.processing_queue ≠ [] then "ready"
          else s.system_status } := by
  cases hcat : findCategory item.category with
  | none => rw [complete_processing, hcat] at h; cases h
  | some spec =>
    rw [complete_processing, hcat] at h
    simp only [Except.ok.injEq] at h
    exact ⟨spec, rfl, h.symm⟩

/-- C4 counterexample: after enqueueing one battery item on a fresh
twin, the reachable state has a non-empty queue and an empty active set,
yet its status is still `"idle"`, not `"ready"` — the status is not
derived from the queue/active counts. -/
theorem C4_counterexample :
    Reachable ⟨batteryOne, [], 1⟩ ∧
      batteryOne.processing_queue ≠ [] ∧
      batteryOne.active_processes = [] ∧
      batteryOne.system_status = "idle" ∧
      batteryOne.system_status ≠ "ready" := by
  refine ⟨?_, by decide, by decide, by decide, by decide⟩
  exact Relation.ReflTransGen.single
    (Step.enqueue initGState "battery" 1 drawTimes drawRands drawIsos
      batteryOne rfl)

/-- C4 (amended): the status is a stateful field updated only at
transitions, not an invariant of the counts. A successful `add_to_queue`
never updates it (so a non-empty queue can report `"idle"`); a
successful `process_next_item` always sets it to `"processing"`; the
completion bookkeeping sets it to `"idle"` when the active set (after
removal) and the queue are both empty, to `"ready"` whenever the queue
is non-empty — even if items are still active — and leaves it unchanged
otherwise. -/
theorem C4_status_is_stateful (s : TwinState) :
    (∀ times rands isos category quantity s',
        add_to_queue times rands isos s category quantity = Except.ok s' →
          s'.system_status = s.system_status) ∧
      (∀ startTime item s',
        process_next_item startTime s = some (item, s') →
          s'.system_status = "processing") ∧
      (∀ base jitter eff endTime item s',
        complete_processing base jitter eff endTime item s = Except.ok s' →
          ((s'.active_processes = [] ∧ s.processing_queue = []) →
              s'.system_status = "idle") ∧
            (s.processing_queue ≠ [] → s'.system_status = "ready") ∧
            ((s'.active_processes ≠ [] ∧ s.processing_queue = []) →
              s'.system_status = s.system_status)) := by
  refine ⟨?_, ?_, ?_⟩
  · intro times rands isos category quantity s' h
    exact (add_to_queue_ok_fields times rands isos s category quantity s' h).2.2.2.1
  · intro startTime item s' h
    obtain ⟨a, rest, _, _, hs'⟩ := process_next_item_some_fields startTime s item s' h
    rw [hs']
  · intro base jitter eff endTime item s' h
    obtain ⟨spec, _, hs'⟩ :=
      complete_processing_ok_fields base jitter eff endTime item s s' h
    subst hs'
    refine ⟨fun hc => ?_, fun hq => ?_, fun hc => ?_⟩
    · simp only at hc ⊢
      rw [if_pos ⟨hc.1, hc.2⟩]
    · simp only
      by_cases hact : dictDel item.id s.active_processes = [] ∧ s.processing_queue = []
      · exact absurd hact.2 hq
      · rw [if_neg hact, if_pos hq]
    · simp only at hc ⊢
      rw [if_neg (fun hb => hc.1 hb.1), if_neg (fun hb => hb hc.2)]

/-- C4 witness: the amended theorem applied at concrete states — the
`process_next_item` part at `mouseEnqueued` and the `add_to_queue` part
at the fresh twin. -/
theorem C4_status_is_stateful_witness :
    busy1.system_status = "processing" ∧
      batteryOne.system_status = initState.system_status :=
  ⟨(C4_status_is_stateful mouseEnqueued).2.1 "S1" (startedMouse 0 "S1") busy1 rfl,
   (C4_status_is_stateful initState).1 drawTimes drawRands drawIsos "battery" 1
     batteryOne rfl⟩

/-- C9 counterexample: the two distinct items created by one
`add_to_queue("battery", 2)` call (occupying queue positions 0 and 1 of
a reachable state) carry the same id `"battery_1000_1234"` — ids are not
globally unique. -/
theorem C9_counterexample :
    Reachable ⟨batteryTwo, [], 2⟩ ∧
      batteryTwo.processing_queue.length = 2 ∧
      batteryTwo.processing_queue.map Item.id =
        ["battery_1000_1234", "battery_1000_1234"] := by
  refine ⟨?_, by decide, by decide⟩
  exact Relation.ReflTransGen.single
    (Step.enqueue initGState "battery" 2 drawTimes drawRands drawIsos
      batteryTwo rfl)

/-- C9 (amended): an item's id is the pure function
`category ++ "_" ++ str(clock second) ++ "_" ++ str(random suffix)` of
its creation draws — nothing else feeds it — so two items created in the
same second with the same random suffix receive identical ids, and
uniqueness holds only with high probability, not absolutely. -/
theorem C9_id_is_function_of_draws (category : String) (now suffix : ℕ)
    (iso iso2 : String) (spec spec2 : CategorySpec) :
    (mkItem category now suffix iso spec).id =
        category ++ "_" ++ toString now ++ "_" ++ toString suffix ∧
      (mkItem category now suffix iso spec).id =
        (mkItem category now suffix iso2 spec2).id :=
  ⟨rfl, rfl⟩

lemma dictGet?_dictSet_self (k : String) (v : α) (d : List (String × α)) :
    dictGet? k (dictSet k v d) = some v := by
  induction d with
  | nil => simp [dictSet, dictGet?]
  | cons hd tl ih =>
    obtain ⟨k0, v0⟩ := hd
    by_cases hk : k0 = k
    · subst hk
      simp [dictSet, dictGet?]
    · simp only [dictSet, if_neg hk]
      simpa [dictGet?, List.find?_cons, hk] using ih

lemma dictGet?_dictSet_ne (k m : String) (v : α) (d : List (String × α))
    (hm : m ≠ k) : dictGet? m (dictSet k v d) = dictGet? m d := by
  induction d with
  | nil => simp [dictSet, dictGet?, List.find?_cons, Ne.symm hm]
  | cons hd tl ih =>
    obtain ⟨k0, v0⟩ := hd
    by_cases hk : k0 = k
    · subst hk
      simp [dictSet, dictGet?, List.find?_cons, Ne.symm hm]
    · simp only [dictSet, if_neg hk]
      by_cases hk0 : k0 = m
      · subst hk0
        simp [dictGet?, List.find?_cons]
      · simpa [dictGet?, List.find?_cons, hk0] using ih

lemma dictGet?_append (k : String) (d l : List (String × α)) :
    dictGet? k (d ++ l) =
      match dictGet? k d with
      | some v => some v
      | none => dictGet? k l := by
  induction d with
  | nil => simp [dictGet?]
  | cons hd tl ih =>
    obtain ⟨k0, v0⟩ := hd
    by_cases hk : k0 = k
    · subst hk
      simp [dictGet?, List.find?_cons]
    · simpa [dictGet?, List.find?_cons, hk] using ih

lemma dictGet?_dictAdd_self (k : String) (v : ℚ) (d : List (String × ℚ)) :
    dictGet? k (dictAdd k v d) = some ((dictGet? k d).getD 0 + v) := by
  unfold dictAdd
  cases hd : dictGet? k d with
  | some v0 => simp [dictGet?_dictSet_self]
  | none =>
    rw [dictGet?_append, hd]
    simp [dictGet?, List.find?_cons]

lemma dictGet?_dictAdd_ne (k m : String) (v : ℚ) (d : List (String × ℚ))
    (hm : m ≠ k) : dictGet? m (dictAdd k v d) = dictGet? m d := by
  unfold dictAdd
  cases hd : dictGet? k d with
  | some v0 => exact dictGet?_dictSet_ne k m _ d hm
  | none =>
    rw [dictGet?_append]
    have h1 : dictGet? m [(k, v)] = none := by
      simp [dictGet?, List.find?_cons, Ne.symm hm]
    rw [h1]
    cases dictGet? m d <;> rfl

/-- The paired materials fold splits into independent folds over the
item's recorded dict and the global totals. -/
lemma step_material_fold_split (spec : CategorySpec) (base jitter : String → ℚ)
    (mats : List String) (rec : List (String × ℚ)) (tot : List (String × ℚ)) :
    mats.foldl (step_material spec base jitter) (rec, tot) =
      (mats.foldl
        (fun r m => dictSet m (round4 (base m * spec.recovery_rate * jitter m)) r) rec,
       mats.foldl
        (fun t m => dictAdd m (base m * spec.recovery_rate * jitter m) t) tot) := by
  induction mats generalizing rec tot with
  | nil => rfl
  | cons hd tl ih => simpa [step_material] using ih _ _

lemma foldl_dictAdd_notmem (w : String → ℚ) (mats : List String)
    (tot : List (String × ℚ)) (m : String) (hm : m ∉ mats) :
    dictGet? m (mats.foldl (fun t x => dictAdd x (w x) t) tot) =
      dictGet? m tot := by
  induction mats generalizing tot with
  | nil => rfl
  | cons hd tl ih =>
    simp only [List.foldl_cons]
    rw [ih _ (fun hmem => hm (List.mem_cons_of_mem _ hmem)),
      dictGet?_dictAdd_ne hd m _ tot (fun he => hm (he ▸ List.mem_cons_self _ _))]

lemma foldl_dictSet_notmem (w : String → ℚ) (mats : List String)
    (rec : List (String × ℚ)) (m : String) (hm : m ∉ mats) :
    dictGet? m (mats.foldl (fun r x => dictSet x (w x) r) rec) =
      dictGet? m rec := by
  induction mats generalizing rec with
  | nil => rfl
  | cons hd tl ih =>
    simp only [List.foldl_cons]
    rw [ih _ (fun hmem => hm (List.mem_cons_of_mem _ hmem)),
      dictGet?_dictSet_ne hd m _ rec (fun he => hm (he ▸ List.mem_cons_self _ _))]

lemma foldl_dictAdd_mem (w : String → ℚ) (mats : List String)
    (tot : List (String × ℚ)) (m : String) (hnd : mats.Nodup) (hm : m ∈ mats) :
    dictGet? m (mats.foldl (fun t x => dictAdd x (w x) t) tot) =
      some ((dictGet? m tot).getD 0 + w m) := by
  induction mats generalizing tot with
  | nil => cases hm
  | cons hd tl ih =>
    simp only [List.nodup_cons] at hnd
    rcases List.mem_cons.1 hm with he | hmem
    · subst he
      simp only [List.foldl_cons]
      rw [foldl_dictAdd_notmem w tl _ m hnd.1, dictGet?_dictAdd_self]
    · have hne : m ≠ hd := fun he => hnd.1 (he ▸ hmem)
      simp only [List.foldl_cons]
      rw [ih _ hnd.2 hmem, dictGet?_dictAdd_ne hd m _ tot hne]

lemma foldl_dictSet_mem (w : String → ℚ) (mats : List String)
    (rec : List (String × ℚ)) (m : String) (hnd : mats.Nodup) (hm : m ∈ mats) :
    dictGet? m (mats.foldl (fun r x => dictSet x (w x) r) rec) = some (w m) := by
  induction mats generalizing rec with
  | nil => cases hm
  | cons hd tl ih =>
    simp only [List.nodup_cons] at hnd
    rcases List.mem_cons.1 hm with he | hmem
    · subst he
      simp only [List.foldl_cons]
      rw [foldl_dictSet_notmem w tl _ m hnd.1, dictGet?_dictSet_self]
    · have _hne : m ≠ hd := fun he => hnd.1 (he ▸ hmem)
      simp only [List.foldl_cons]
      rw [ih _ hnd.2 hmem]

/-- Materials accounting of one `complete_processing` call: for every
material of the item's category, the global total grows by the exact
(unrounded) recovered quantity, while the completed item (appended at
the end of `processed_items`) records the quantity rounded to 4
decimals. -/
lemma complete_processing_materials (base jitter : String → ℚ) (eff : ℚ)
    (endTime : String) (item : Item) (s s' : TwinState) (spec : CategorySpec)
    (hspec : findCategory item.category = some spec)
    (hnodup : spec.materials.Nodup)
    (h : complete_processing base jitter eff endTime item s = Except.ok s') :
    ∀ m ∈ spec.materials,
      dictGet? m s'.total_materials_recovered =
        some ((dictGet? m s.total_materials_recovered).getD 0 +
          base m * spec.recovery_rate * jitter m) ∧
      ∃ itemDone, s'.processed_items.getLast? = some itemDone ∧
        dictGet? m itemDone.materials_recovered =
          some (round4 (base m * spec.recovery_rate * jitter m)) := by
  obtain ⟨spec', hspec', hs'⟩ :=
    complete_processing_ok_fields base jitter eff endTime item s s' h
  rw [hspec] at hspec'
  injection hspec' with hspec'
  subst hspec'
  subst hs'
  intro m hm
  constructor
  · simp only [step_material_fold_split]
    exact foldl_dictAdd_mem _ spec.materials _ m hnodup hm
  · refine ⟨_, List.getLast?_concat _, ?_⟩
    simp only [step_material_fold_split]
    exact foldl_dictSet_mem _ spec.materials _ m hnodup hm

/-- C5 (amended): on completion of an item, each per-material recovered
quantity recorded in the item is rounded to 4 decimal places, but the
global material totals accumulate the exact, unrounded recovered
quantities: the new total for each material of the category equals the
pre-existing total plus `base × recovery_rate × jitter` (which differs
from the item's recorded 4-decimal value whenever the quantity is not
already a multiple of 1/10000). -/
theorem C5_totals_accumulate_unrounded (base jitter : String → ℚ) (eff : ℚ)
    (endTime : String) (item : Item) (s s' : TwinState) (spec : CategorySpec)
    (hspec : findCategory item.category = some spec)
    (hnodup : spec.materials.Nodup)
    (h : complete_processing base jitter eff endTime item s = Except.ok s') :
    ∀ m ∈ spec.materials,
      dictGet? m s'.total_materials_recovered =
        some ((dictGet? m s.total_materials_recovered).getD 0 +
          base m * spec.recovery_rate * jitter m) ∧
      ∃ itemDone, s'.processed_items.getLast? = some itemDone ∧
        dictGet? m itemDone.materials_recovered =
          some (round4 (base m * spec.recovery_rate * jitter m)) :=
  complete_processing_materials base jitter eff endTime item s s' spec
    hspec hnodup h

/-- C5 counterexample: completing the battery item with lithium draw
`0.012345 × 0.85 × 1 = 0.01049325` stores the rounded value `0.0105` in
the item but adds the unrounded `0.01049325` to the global lithium total
(previously 0) — the amount added to the global total does not equal the
amount stored in the item. -/
theorem C5_counterexample :
    Reachable ⟨batDone, [], 1⟩ ∧
      dictGet? "lithium" batProcessing.total_materials_recovered = some 0 ∧
      dictGet? "lithium" batDone.total_materials_recovered =
        some (mkRat 1049325 100000000) ∧
      (∃ itemDone, batDone.processed_items.getLast? = some itemDone ∧
        dictGet? "lithium" itemDone.materials_recovered = some (mkRat 105 10000)) ∧
      (0 : ℚ) + mkRat 105 10000 ≠ mkRat 1049325 100000000 := by
  have hcomp : complete_processing cexBase cexJitter (mkRat 8 10) "E1"
      batStartedItem batProcessing = Except.ok batDone := rfl
  have hmat := complete_processing_materials cexBase cexJitter (mkRat 8 10) "E1"
    batStartedItem batProcessing batDone batterySpec rfl (by decide) hcomp
    "lithium" (by decide)
  have hget0 : dictGet? "lithium" batProcessing.total_materials_recovered =
      some 0 := by decide
  have hbase : cexBase "lithium" = mkRat 12345 1000000 := by decide
  have hjit : cexJitter "lithium" = 1 := rfl
  have hrate : batterySpec.recovery_rate = mkRat 85 100 := rfl
  refine ⟨?_, hget0, ?_, ?_, ?_⟩
  · have h0 : Step initGState ⟨batteryOne, [], 1⟩ :=
      Step.enqueue initGState "battery" 1 drawTimes drawRands drawIsos
        batteryOne rfl
    have h1 : Step ⟨batteryOne, [], 1⟩ ⟨batProcessing, [batStartedItem], 1⟩ :=
      Step.processNext ⟨batteryOne, [], 1⟩ "S1" batStartedItem batProcessing rfl
    have h2 : Step ⟨batProcessing, [batStartedItem], 1⟩ ⟨batDone, [], 1⟩ :=
      Step.complete ⟨batProcessing, [batStartedItem], 1⟩ batStartedItem
        [] [] cexBase cexJitter (mkRat 8 10) "E1" batterySpec batDone
        rfl rfl (by decide) (by decide) (by decide) hcomp
    exact Relation.ReflTransGen.head h0 (Relation.ReflTransGen.head h1
      (Relation.ReflTransGen.single h2))
  · rw [hmat.1, hget0, hbase, hjit, hrate]
    rw [Rat.mkRat_eq_div, Rat.mkRat_eq_div, Rat.mkRat_eq_div]
    norm_num
  · obtain ⟨itemDone, hlast, hrec⟩ := hmat.2
    refine ⟨itemDone, hlast, ?_⟩
    rw [hrec, hbase, hjit, hrate]
    rw [Rat.mkRat_eq_div, Rat.mkRat_eq_div, Rat.mkRat_eq_div]
    norm_num [round4]
  · rw [Rat.mkRat_eq_div, Rat.mkRat_eq_div]
    norm_num

/-- C5 witness: the amended theorem at the concrete completion above,
evaluated at the material `"lithium"`. -/
theorem C5_totals_accumulate_unrounded_witness :
    findCategory batStartedItem.category = some batterySpec ∧
      batterySpec.materials.Nodup ∧
      complete_processing cexBase cexJitter (mkRat 8 10) "E1" batStartedItem
        batProcessing = Except.ok batDone ∧
      (∀ m ∈ batterySpec.materials,
        dictGet? m batDone.total_materials_recovered =
          some ((dictGet? m batProcessing.total_materials_recovered).getD 0 +
            cexBase m * batterySpec.recovery_rate * cexJitter m) ∧
        ∃ itemDone, batDone.processed_items.getLast? = some itemDone ∧
          dictGet? m itemDone.materials_recovered =
            some (round4 (cexBase m * batterySpec.recovery_rate * cexJitter m))) :=
  ⟨rfl, by decide, rfl,
   C5_totals_accumulate_unrounded cexBase cexJitter (mkRat 8 10) "E1"
     batStartedItem batProcessing batDone batterySpec rfl (by decide) rfl⟩

lemma mem_dictSet (k : String) (v : α) (d : List (String × α))
    (kv : String × α) (h : kv ∈ dictSet k v d) : kv ∈ d ∨ kv = (k, v) := by
  induction d with
  | nil => simpa [dictSet] using h
  | cons hd tl ih =>
    obtain ⟨k0, v0⟩ := hd
    by_cases hk : k0 = k
    · subst hk
      simp only [dictSet, if_pos rfl] at h
      rcases List.mem_cons.1 h with he | hmem
      · exact Or.inr he
      · exact Or.inl (List.mem_cons_of_mem _ hmem)
    · simp only [dictSet, if_neg hk] at h
      rcases List.mem_cons.1 h with he | hmem
      · exact Or.inl (he ▸ List.mem_cons_self _ _)
      · rcases ih hmem with h1 | h2
        · exact Or.inl (List.mem_cons_of_mem _ h1)
        · exact Or.inr h2

lemma dictGet?_some_mem (k : String) (v : α) (d : List (String × α))
    (h : dictGet? k d = some v) : (k, v) ∈ d := by
  unfold dictGet? at h
  cases hf : d.find? (fun p => p.1 = k) with
  | none => rw [hf] at h; cases h
  | some a =>
    rw [hf] at h
    have ha := List.mem_of_find?_eq_some hf
    have hp := List.find?_some hf
    obtain ⟨a1, a2⟩ := a
    have hk : a1 = k := of_decide_eq_true hp
    have hv : a2 = v := Option.some.inj h
    subst hk
    subst hv
    exact ha

lemma foldl_dictAdd_isSome (w : String → ℚ) (mats : List String)
    (tot : List (String × ℚ)) (m : String)
    (h : (dictGet? m tot).isSome = true) :
    (dictGet? m (mats.foldl (fun t x => dictAdd x (w x) t) tot)).isSome = true := by
  induction mats generalizing tot with
  | nil => exact h
  | cons hd tl ih =>
    simp only [List.foldl_cons]
    apply ih
    by_cases he : m = hd
    · subst he
      rw [dictGet?_dictAdd_self]
      rfl
    · rw [dictGet?_dictAdd_ne hd m _ tot he]
      exact h

lemma foldl_dictAdd_nonneg (w : String → ℚ) (mats : List String)
    (tot : List (String × ℚ)) (h0 : ∀ kv ∈ tot, 0 ≤ kv.2)
    (hw : ∀ x ∈ mats, 0 ≤ w x) :
    ∀ kv ∈ mats.foldl (fun t x => dictAdd x (w x) t) tot, 0 ≤ kv.2 := by
  induction mats generalizing tot with
  | nil => exact h0
  | cons hd tl ih =>
    simp only [List.foldl_cons]
    refine ih _ ?_ (fun x hx => hw x (List.mem_cons_of_mem _ hx))
    intro kv hkv
    have hwhd : 0 ≤ w hd := hw hd (List.mem_cons_self _ _)
    unfold dictAdd at hkv
    cases hget : dictGet? hd tot with
    | some v0 =>
      rw [hget] at hkv
      rcases mem_dictSet hd (v0 + w hd) tot kv hkv with hmem | he
      · exact h0 kv hmem
      · rw [he]
        have hv0 : 0 ≤ v0 := h0 (hd, v0) (dictGet?_some_mem hd v0 tot hget)
        exact add_nonneg hv0 hwhd
    | none =>
      rw [hget] at hkv
      rcases List.mem_append.1 hkv with hmem | hmem
      · exact h0 kv hmem
      · rw [List.mem_singleton.1 hmem]
        exact hwhd

lemma dictGet?_map_value (f : ℚ → ℚ) (m : String) (d : List (String × ℚ)) :
    dictGet? m (d.map (fun kv => (kv.1, f kv.2))) = (dictGet? m d).map f := by
  induction d with
  | nil => rfl
  | cons hd tl ih =>
    obtain ⟨k0, v0⟩ := hd
    by_cases hk : k0 = m
    · subst hk
      simp [dictGet?, List.find?_cons]
    · simpa [dictGet?, List.find?_cons, hk] using ih

lemma catalog_rate_nonneg : ∀ p ∈ EWASTE_CATEGORIES, 0 ≤ p.2.recovery_rate := by
  decide

lemma findCategory_mem (c : String) (spec : CategorySpec)
    (h : findCategory c = some spec) : (c, spec) ∈ EWASTE_CATEGORIES := by
  unfold findCategory at h
  cases hf : EWASTE_CATEGORIES.find? (fun p => p.1 = c) with
  | none => rw [hf] at h; cases h
  | some a =>
    rw [hf] at h
    have ha := List.mem_of_find?_eq_some hf
    have hp := List.find?_some hf
    obtain ⟨a1, a2⟩ := a
    have hk : a1 = c := of_decide_eq_true hp
    have hv : a2 = spec := Option.some.inj h
    subst hk
    subst hv
    exact ha

lemma inv_init : TwinInv initGState := by
  refine ⟨rfl, ?_, ?_, ?_, ?_⟩ <;> decide

lemma inv_step (g g' : GState) (hstep : Step g g') (hinv : TwinInv g) : TwinInv g' := by
  obtain ⟨hcount, hnodup, hsub, hcover, hnonneg⟩ := hinv
  cases hstep with
  | enqueue category quantity times rands isos s' h =>
    obtain ⟨hdone, hact, htot, _, hqlen⟩ :=
      add_to_queue_ok_fields times rands isos g.twin category quantity s' h
    refine ⟨by simp only [hdone, hqlen]; omega, ?_, ?_, ?_, ?_⟩
    · rw [hact]; exact hnodup
    · rw [hact]; exact hsub
    · intro p hp m hm
      rw [htot]
      exact hcover p hp m hm
    · intro kv hkv
      rw [htot] at hkv
      exact hnonneg kv hkv
  | processNext startTime item s' h =>
    obtain ⟨a, rest, hqs, hitem, hs'⟩ :=
      process_next_item_some_fields startTime g.twin item s' h
    subst hs'
    refine ⟨?_, ?_, ?_, hcover, hnonneg⟩
    · simp only [List.length_append, List.length_cons, List.length_nil]
      rw [hqs] at hcount
      simp only [List.length_cons] at hcount
      omega
    · exact dictKeys_dictSet_nodup item.id item g.twin.active_processes hnodup
    · intro k hk
      rcases dictKeys_dictSet item.id item g.twin.active_processes k hk with hmem | he
      · rw [List.map_append]
        exact List.mem_append_left _ (hsub k hmem)
      · rw [List.map_append, he]
        exact List.mem_append_right _ (by simp)
  | complete item pre post base jitter eff endTime spec s' hrun hspec hbase
      hjitter heff h =>
    obtain ⟨spec', hspec', hs'⟩ :=
      complete_processing_ok_fields base jitter eff endTime item g.twin s' h
    rw [hspec] at hspec'
    injection hspec' with hspec'
    subst hspec'
    subst hs'
    have hrate : 0 ≤ spec.recovery_rate :=
      catalog_rate_nonneg (item.category, spec) (findCategory_mem _ _ hspec)
    have hrec : ∀ m ∈ spec.materials,
        0 ≤ base m * spec.recovery_rate * jitter m := by
      intro m hm
      have hb := hbase m hm
      have hj := (hjitter m hm).1
      have hb0 : 0 ≤ base m := by
        by_cases ht : m ∈ TRACE_MATERIALS
        · rw [if_pos ht] at hb
          calc (0 : ℚ) ≤ mkRat 1 1000 := by decide
            _ ≤ base m := hb.1
        · rw [if_neg ht] at hb
          calc (0 : ℚ) ≤ 10 := by decide
            _ ≤ base m := hb.1
      have hj0 : 0 ≤ jitter m :=
        le_trans (by decide : (0 : ℚ) ≤ mkRat 4 5) hj
      exact mul_nonneg (mul_nonneg hb0 hrate) hj0
    refine ⟨?_, ?_, ?_, ?_, ?_⟩
    · simp only [List.length_append, List.length_cons, List.length_nil]
      rw [hrun] at hcount
      simp only [List.length_append, List.length_cons, List.length_nil] at hcount
      omega
    · exact dictKeys_dictDel_nodup item.id g.twin.active_processes hnodup
    · intro k hk
      obtain ⟨hmem, hne⟩ :=
        mem_dictKeys_dictDel item.id g.twin.active_processes hnodup k hk
      have := hsub k hmem
      rw [hrun] at this
      simp only [List.map_append, List.map_cons, List.mem_append,
        List.mem_cons] at this
      rcases this with h1 | h2
      · rw [List.map_append]
        exact List.mem_append_left _ h1
      · rcases h2 with he | h3
        · exact absurd he hne
        · rw [List.map_append]
          exact List.mem_append_right _ h3
    · intro p hp m hm
      simp only [step_material_fold_split]
      exact foldl_dictAdd_isSome _ spec.materials _ m (hcover p hp m hm)
    · intro kv hkv
      simp only [step_material_fold_split] at hkv
      exact foldl_dictAdd_nonneg _ spec.materials _ hnonneg hrec kv hkv

lemma reachable_inv (g : GState) (h : Reachable g) : TwinInv g := by
  induction h with
  | refl => exact inv_init
  | tail hstep ih => exact inv_step _ _ ih (by assumption)

lemma active_le_running (g : GState) (hinv : TwinInv g) :
    g.twin.active_processes.length ≤ g.running.length := by
  obtain ⟨-, hnodup, hsub, -, -⟩ := hinv
  have h1 : (dictKeys g.twin.active_processes).toFinset.card =
      (dictKeys g.twin.active_processes).length :=
    List.toFinset_card_of_nodup hnodup
  have h2 : (dictKeys g.twin.active_processes).toFinset ⊆
      (g.running.map Item.id).toFinset := by
    intro x hx
    exact List.mem_toFinset.2 (hsub x (List.mem_toFinset.1 hx))
  have h3 := Finset.card_le_card h2
  have h4 : (g.running.map Item.id).toFinset.card ≤
      (g.running.map Item.id).length := (g.running.map Item.id).toFinset_card_le
  have h5 : (dictKeys g.twin.active_processes).length =
      g.twin.active_processes.length := List.length_map _ _
  have h6 : (g.running.map Item.id).length = g.running.length :=
    List.length_map _ _
  omega

/-- C8: in every reachable state, the queue length plus the active count
reported by `get_system_stats` never exceeds the number of items ever
enqueued minus the completed count — each item is in at most one of the
queue, the active set and the completed history. -/
theorem C8_conservation (isToday : String → Bool) (g : GState)
    (h : Reachable g) :
    (get_system_stats isToday g.twin).queue_length +
        (get_system_stats isToday g.twin).active_count ≤
      g.enqueued - (get_system_stats isToday g.twin).total_processed := by
  have hinv := reachable_inv g h
  have hle := active_le_running g hinv
  obtain ⟨hcount, -, -, -, -⟩ := hinv
  simp only [get_system_stats]
  omega

/-- C8 witness: the theorem at the freshly constructed twin. -/
theorem C8_conservation_witness :
    (get_system_stats (fun _ => true) initGState.twin).queue_length +
        (get_system_stats (fun _ => true) initGState.twin).active_count ≤
      initGState.enqueued -
        (get_system_stats (fun _ => true) initGState.twin).total_processed :=
  C8_conservation (fun _ => true) initGState Relation.ReflTransGen.refl

/-- C10: in every reachable state, the global material-totals mapping
has an entry for every material of every catalog category (seeded to 0
at construction), every entry of the mapping is non-negative, and
`get_system_stats` therefore reports a (possibly zero) 4-decimal-rounded
cumulative total for every catalog material. -/
theorem C10_totals_cover_catalog (isToday : String → Bool) (g : GState)
    (h : Reachable g) :
    (∀ p ∈ EWASTE_CATEGORIES, ∀ m ∈ p.2.materials,
        ∃ v, dictGet? m g.twin.total_materials_recovered = some v ∧ 0 ≤ v ∧
          dictGet? m (get_system_stats isToday g.twin).total_materials_recovered =
            some (round4 v)) ∧
      ∀ kv ∈ g.twin.total_materials_recovered, 0 ≤ kv.2 := by
  have hinv := reachable_inv g h
  obtain ⟨-, -, -, hcover, hnonneg⟩ := hinv
  refine ⟨?_, hnonneg⟩
  intro p hp m hm
  obtain ⟨v, hv⟩ := Option.isSome_iff_exists.1 (hcover p hp m hm)
  refine ⟨v, hv, hnonneg (m, v) (dictGet?_some_mem m v _ hv), ?_⟩
  simp only [get_system_stats]
  rw [dictGet?_map_value round4 m g.twin.total_materials_recovered, hv]
  rfl

/-- C10 witness: the theorem at the freshly constructed twin. -/
theorem C10_totals_cover_catalog_witness :
    (∀ p ∈ EWASTE_CATEGORIES, ∀ m ∈ p.2.materials,
        ∃ v, dictGet? m initGState.twin.total_materials_recovered = some v ∧
          0 ≤ v ∧
          dictGet? m (get_system_stats (fun _ => true)
            initGState.twin).total_materials_recovered = some (round4 v)) ∧
      ∀ kv ∈ initGState.twin.total_materials_recovered, 0 ≤ kv.2 :=
  C10_totals_cover_catalog (fun _ => true) initGState Relation.ReflTransGen.refl
